/-
Verification development for the sentio memory service.

This file gives a shallow embedding, in Lean 4, of the core logic of the
repository's memory subsystem and LLM retry loop:

  * the error taxonomy and its `is_retryable` predicate
    (src/services/memory/src/error.rs),
  * the generic retry executor `execute_with_retry`
    (src/services/memory/src/mongo_repository.rs),
  * the document-store backend `MongoMemoryRepository`: per-operation
    `user_id` validation, corpus validation, and the per-collection effects
    of each repository operation (the MongoDB driver's behaviour — upsert by
    unique key, `$set` field updates, filter/sort/limit on find, and
    delete-by-filter — is modelled directly on Lean lists and association
    lists),
  * the file-snapshot backend `MemoryDataRepository`
    (src/services/memory/src/memory_data.rs): three in-memory maps with the
    exact update, search, take-limit and delete logic of the source (disk
    persistence always succeeds in the model, so `save_to_file` is elided),
  * the exponential-backoff retry loop of the LLM HTTP client
    (src/services/llm/src/client.rs), with the network modelled as an
    attempt-indexed sequence of outcomes.

Timestamps (`chrono::DateTime<Utc>`) are modelled as `Int` (UTC milliseconds);
`Utc::now()` becomes an explicit `now : Int` argument. Strings are Lean
`String`s; Rust's byte length is modelled by character length, and Rust's
lowercase conversion by `String.toLower` (the two agree on ASCII data, which
is all the validation and search logic distinguishes). Floating-point fields
(`relevance_score`, `cost_usd`, `confidence`) and fields never read or
written by any embedded operation are omitted from the record types; the
operations treat the records they carry opaquely except for the fields kept.
-/
import Mathlib

set_option linter.unusedVariables false

/-! ## String helpers

Rust's `str::contains` (substring test) and `str::split_whitespace`,
modelled on character lists. -/

/-- Whether `pat` is a leading segment of `hay` (both as character lists). -/
def prefAux : List Char → List Char → Bool
  | [], _ => true
  | _ :: _, [] => false
  | a :: as, b :: bs => a == b && prefAux as bs

/-- Whether `pat` occurs contiguously anywhere inside `hay`. -/
def subAux (pat : List Char) : List Char → Bool
  | [] => prefAux pat []
  | c :: t => prefAux pat (c :: t) || subAux pat t

/-- Rust `hay.contains(pat)`: substring containment. -/
def containsSub (hay pat : String) : Bool :=
  subAux pat.data hay.data

/-- Rust `s.contains(c)` for a single character. -/
def containsChar (s : String) (c : Char) : Bool :=
  s.data.contains c

/-- Rust `s.to_lowercase()`, modelled character-wise (the two agree on the
ASCII data all embedded logic distinguishes). -/
def toLowerStr (s : String) : String :=
  String.mk (s.data.map Char.toLower)

/-- Accumulator pass for `split_whitespace`: `acc` holds the reversed
characters of the word in progress. -/
def splitWSAux : List Char → List Char → List String
  | [], acc => if acc.isEmpty then [] else [String.mk acc.reverse]
  | c :: t, acc =>
    if c.isWhitespace then
      if acc.isEmpty then splitWSAux t []
      else String.mk acc.reverse :: splitWSAux t []
    else splitWSAux t (c :: acc)

/-- Rust `s.split_whitespace()`: split on whitespace runs, dropping empty
pieces. -/
def splitWS (s : String) : List String :=
  splitWSAux s.data []

/-! ## Association-list maps

`HashMap<String, V>` (file backend) and MongoDB collections with a unique
index on `user_id` (corpus collection) are modelled as association lists
with first-match lookup. -/

/-- First-match lookup, as `HashMap::get` / `find_one` on a unique key. -/
def lookupA {α : Type} : List (String × α) → String → Option α
  | [], _ => none
  | (k, v) :: t, key => if k = key then some v else lookupA t key

/-- `HashMap::insert` / `replace_one` with upsert: replace the value at the
first matching key, or append a fresh entry. -/
def insertA {α : Type} : List (String × α) → String → α → List (String × α)
  | [], key, v => [(key, v)]
  | (k, w) :: t, key, v =>
    if k = key then (k, v) :: t else (k, w) :: insertA t key v

/-- `HashMap::remove`: drop every entry with the given key. -/
def removeA {α : Type} (m : List (String × α)) (key : String) : List (String × α) :=
  m.filter (fun p => p.1 ≠ key)

/-- MongoDB `delete_one` by key: drop only the first matching entry. -/
def removeFirstA {α : Type} : List (String × α) → String → List (String × α)
  | [], _ => []
  | (k, v) :: t, key => if k = key then t else (k, v) :: removeFirstA t key

/-- MongoDB `update_one` by key: rewrite only the first matching entry. -/
def updateFirstA {α : Type} : List (String × α) → String → (α → α) → List (String × α)
  | [], _, _ => []
  | (k, v) :: t, key, f =>
    if k = key then (k, f v) :: t else (k, v) :: updateFirstA t key f

/-- `HashMap::entry(key).or_default().push(x)`: append to the list stored at
`key`, materialising an empty list first when the key is absent. -/
def pushA {β : Type} : List (String × List β) → String → β → List (String × List β)
  | [], key, x => [(key, [x])]
  | (k, l) :: t, key, x =>
    if k = key then (k, l ++ [x]) :: t else (k, l) :: pushA t key x

theorem lookupA_insertA_self {α : Type} (m : List (String × α)) (k : String) (v : α) :
    lookupA (insertA m k v) k = some v := by
  induction m with
  | nil => simp [insertA, lookupA]
  | cons p t ih =>
    obtain ⟨k', w⟩ := p
    by_cases h : k' = k <;> simp [insertA, lookupA, h, ih]

theorem lookupA_insertA_ne {α : Type} (m : List (String × α)) (k k' : String) (v : α)
    (h : k' ≠ k) : lookupA (insertA m k v) k' = lookupA m k' := by
  induction m with
  | nil => simp [insertA, lookupA, Ne.symm h]
  | cons p t ih =>
    obtain ⟨k'', w⟩ := p
    by_cases h1 : k'' = k
    · subst h1
      simp [insertA, lookupA, Ne.symm h]
    · simp [insertA, lookupA, h1, ih]

theorem lookupA_removeA {α : Type} (m : List (String × α)) (k : String) :
    lookupA (removeA m k) k = none := by
  induction m with
  | nil => simp [removeA, lookupA]
  | cons p t ih =>
    obtain ⟨k', v⟩ := p
    by_cases h : k' = k <;> simp [removeA, lookupA, h] at ih ⊢ <;> simpa [removeA] using ih

theorem removeA_of_lookupA_none {α : Type} (m : List (String × α)) (k : String)
    (h : lookupA m k = none) : removeA m k = m := by
  induction m with
  | nil => rfl
  | cons p t ih =>
    obtain ⟨k', v⟩ := p
    by_cases h1 : k' = k
    · simp [lookupA, h1] at h
    · simp [lookupA, h1] at h
      simpa [removeA, h1] using ih h

theorem removeFirstA_of_lookupA_none {α : Type} (m : List (String × α)) (k : String)
    (h : lookupA m k = none) : removeFirstA m k = m := by
  induction m with
  | nil => rfl
  | cons p t ih =>
    obtain ⟨k', v⟩ := p
    by_cases h1 : k' = k
    · simp [lookupA, h1] at h
    · simp [lookupA, h1] at h
      simp [removeFirstA, h1, ih h]

theorem lookupA_eq_none_of_not_mem_keys {α : Type} (m : List (String × α)) (k : String)
    (h : k ∉ m.map Prod.fst) : lookupA m k = none := by
  induction m with
  | nil => rfl
  | cons p t ih =>
    obtain ⟨k', v⟩ := p
    simp only [List.map_cons, List.mem_cons] at h
    push_neg at h
    simp [lookupA, Ne.symm h.1, ih h.2]

theorem lookupA_removeFirstA_of_nodup {α : Type} (m : List (String × α)) (k : String)
    (hnd : (m.map Prod.fst).Nodup) : lookupA (removeFirstA m k) k = none := by
  induction m with
  | nil => rfl
  | cons p t ih =>
    obtain ⟨k', v⟩ := p
    simp only [List.map_cons, List.nodup_cons] at hnd
    by_cases h1 : k' = k
    · subst h1
      simp only [removeFirstA, if_pos rfl]
      exact lookupA_eq_none_of_not_mem_keys t k' hnd.1
    · simp [removeFirstA, lookupA, h1, ih hnd.2]

theorem lookupA_pushA_self {β : Type} (m : List (String × List β)) (k : String) (x : β) :
    lookupA (pushA m k x) k = some ((lookupA m k).getD [] ++ [x]) := by
  induction m with
  | nil => simp [pushA, lookupA]
  | cons p t ih =>
    obtain ⟨k', l⟩ := p
    by_cases h : k' = k <;> simp [pushA, lookupA, h, ih]

theorem lookupA_updateFirstA_self {α : Type} (m : List (String × α)) (k : String)
    (f : α → α) (v : α) (h : lookupA m k = some v) :
    lookupA (updateFirstA m k f) k = some (f v) := by
  induction m with
  | nil => simp [lookupA] at h
  | cons p t ih =>
    obtain ⟨k', w⟩ := p
    by_cases h1 : k' = k
    · subst h1
      simp [lookupA] at h
      simp [updateFirstA, lookupA, h]
    · simp [lookupA, h1] at h
      simp [updateFirstA, lookupA, h1, ih h]

theorem lookupA_updateFirstA_ne {α : Type} (m : List (String × α)) (k k' : String)
    (f : α → α) (h : k' ≠ k) :
    lookupA (updateFirstA m k f) k' = lookupA m k' := by
  induction m with
  | nil => rfl
  | cons p t ih =>
    obtain ⟨k'', w⟩ := p
    by_cases h1 : k'' = k
    · subst h1
      simp [updateFirstA, lookupA, Ne.symm h]
    · simp [updateFirstA, lookupA, h1, ih]

/-! ## JSON values

`serde_json::Value` restricted to the shapes the embedded code inspects
(`as_str` and `as_u64` are the only accessors used). -/

/-- A JSON value; arrays and objects never reach the embedded operations. -/
inductive JVal where
  | jnull
  | jbool (b : Bool)
  | jnum (n : Int)
  | jstr (s : String)
deriving DecidableEq

/-- `serde_json::Value::as_str`. -/
def JVal.as_str : JVal → Option String
  | .jstr s => some s
  | _ => none

/-- `serde_json::Value::as_u64`: defined for non-negative numbers only. -/
def JVal.as_u64 : JVal → Option Nat
  | .jnum n => if 0 ≤ n then some n.toNat else none
  | _ => none

/-! ## Error taxonomy (src/services/memory/src/error.rs)

The `bson`/`mongodb` wrapper variants carry their source error as the string
the Rust code obtains via `to_string()`. -/

/-- The `MemoryError` enumeration of error.rs. -/
inductive MemoryError where
  | databaseConnectionFailed (message : String)
  | databaseOperationFailed (operation details : String)
  | documentNotFound (document_type id : String)
  | serializationError (source : String)
  | deserializationError (source : String)
  | mongoError (source : String)
  | configurationError (field : String)
  | validationError (field reason : String)
  | concurrencyConflict (resource : String)
  | storageLimitExceeded (limit resource : String)
  | indexError (index_name details : String)
deriving DecidableEq

/-- `MemoryError::is_retryable` exactly as written in error.rs: connection
failures and concurrency conflicts are retryable, operation failures are not,
and a wrapped MongoDB error is retryable when its lowercased message contains
a network, timeout or connection substring. -/
def MemoryError.is_retryable : MemoryError → Bool
  | .databaseConnectionFailed _ => true
  | .databaseOperationFailed _ _ => false
  | .mongoError source =>
    containsSub (toLowerStr source) "network"
      || containsSub (toLowerStr source) "timeout"
      || containsSub (toLowerStr source) "connection"
  | .concurrencyConflict _ => true
  | _ => false

/-- Modelled from the spec: the set of errors the specification describes as
retryable — connection failures, timeouts, and backend-specific transient
operation failures signaled by a network, timeout or connection substring in
the underlying cause (there is no dedicated timeout variant in this
taxonomy; a timeout surfaces as a wrapped backend error whose message
matches the substring test). Stated for comparison with the code's
`MemoryError.is_retryable`. -/
def spec_retryable : MemoryError → Bool
  | .databaseConnectionFailed _ => true
  | .mongoError source =>
    containsSub (toLowerStr source) "network"
      || containsSub (toLowerStr source) "timeout"
      || containsSub (toLowerStr source) "connection"
  | _ => false

/-- Discriminator for the concurrency-conflict variant. -/
def MemoryError.isConcurrencyConflict : MemoryError → Bool
  | .concurrencyConflict _ => true
  | _ => false

/-! ## Data model (src/services/memory/src/models.rs and repository.rs)

Only the fields some embedded operation reads or writes field-wise are kept;
the remaining fields (relationship lists, the four deep memory sections,
float-valued scores) ride along opaquely inside the record values and are
omitted. -/

/-- `MessageDirection`. -/
inductive MessageDirection where
  | inbound
  | outbound
deriving DecidableEq

/-- `CoreProfile`: the profile fields reachable through
`update_memory_corpus` dot-paths, plus `gender` (present in the source,
never updated by path). -/
structure CoreProfile where
  name : Option String
  age : Option Nat
  gender : Option String
  city : Option String
  occupation : Option String
  current_life_summary : Option String
deriving DecidableEq

/-- The empty profile, as `CoreProfile::default()`. -/
def CoreProfile.default : CoreProfile :=
  ⟨none, none, none, none, none, none⟩

/-- `MemoryCorpus`: identification, versioning, the two timestamps and the
core profile. The episodic, semantic, action-state and strategic sections
are never read or written field-wise by any embedded operation and are
omitted. -/
structure MemoryCorpus where
  user_id : String
  version : String
  created_at : Int
  updated_at : Int
  core_profile : CoreProfile
deriving DecidableEq

/-- `InteractionLog`: the fields the embedded operations compare or sort by
(`email_id`, tone, topics, model version, reasoning snapshot and `cost_usd`
are carried by no embedded operation and are omitted). -/
structure InteractionLog where
  log_id : String
  user_id : String
  timestamp : Int
  direction : MessageDirection
  summary : String
deriving DecidableEq

/-- `MemoryType` (repository.rs). -/
inductive MemoryType where
  | episodic
  | semantic
  | actionState
  | strategicInferential
deriving DecidableEq

/-- `MemoryFragment` (repository.rs): searchable unit. `relevance_score`
(float) and `metadata` are omitted. -/
structure MemoryFragment where
  id : String
  user_id : String
  memory_type : MemoryType
  content : String
  tags : List String
  created_at : Int
deriving DecidableEq

/-- `MemoryQuery` (repository.rs). The time range is a closed interval of
timestamps; `relevance_threshold` (float) is omitted — no embedded operation
reads it. -/
structure MemoryQuery where
  query_text : String
  user_id : Option String
  time_range : Option (Int × Int)
  memory_types : List MemoryType
  limit : Option Nat
deriving DecidableEq

/-- `UserStatistics` (repository.rs); the always-empty
`memory_type_distribution` map is omitted. -/
structure UserStatistics where
  user_id : String
  total_interactions : Nat
  first_interaction : Int
  last_interaction : Int
  total_memories : Nat
deriving DecidableEq

/-! ## Document-store backend (src/services/memory/src/mongo_repository.rs)

The MongoDB driver effects are modelled on Lean lists: the corpus collection
(unique index on `user_id`) as an association list, the interaction and
fragment collections as plain lists in insertion order. Every operation
performs its validation first, exactly as in the source; the backend call
itself never fails in the model, so the `execute_with_retry` wrapper around
it is the identity and is studied separately. -/

namespace MongoMemoryRepository

/-- `validate_user_id`: non-empty, at most 255 characters, and an `@`
without a `.` is rejected as a malformed email address. -/
def validate_user_id (user_id : String) : Except MemoryError Unit :=
  if user_id = "" then
    .error (.validationError "user_id" "User ID cannot be empty")
  else if 255 < user_id.length then
    .error (.validationError "user_id" "User ID cannot exceed 255 characters")
  else if containsChar user_id '@' && !containsChar user_id '.' then
    .error (.validationError "user_id" "Invalid email format")
  else
    .ok ()

/-- `validate_memory_corpus`: user id, non-empty version, and
`updated_at >= created_at`. -/
def validate_memory_corpus (corpus : MemoryCorpus) : Except MemoryError Unit :=
  match validate_user_id corpus.user_id with
  | .error e => .error e
  | .ok _ =>
    if corpus.version = "" then
      .error (.validationError "version" "Version cannot be empty")
    else if corpus.updated_at < corpus.created_at then
      .error (.validationError "updated_at" "Updated time cannot be before created time")
    else
      .ok ()

/-! ### The retry executor

`execute_with_retry` runs attempts `0 ..= MAX_RETRIES`; on failure it
retries only while attempts remain and the error is retryable, and finally
reports the error of the last attempt made. The source fixes
`MAX_RETRIES = 3`; the budget is a parameter here, with the loop structure
unchanged. The operation is an attempt-indexed outcome sequence and the
executor also returns how many times the operation was invoked. -/

/-- The retry loop body: `attempt` is the current 0-indexed attempt and
`remaining` the number of retries still allowed (`MAX_RETRIES - attempt`). -/
def retryGo {α : Type} (op : Nat → Except MemoryError α) (attempt : Nat) :
    Nat → Except MemoryError α × Nat
  | 0 =>
    match op attempt with
    | .ok v => (.ok v, attempt + 1)
    | .error e => (.error e, attempt + 1)
  | r + 1 =>
    match op attempt with
    | .ok v => (.ok v, attempt + 1)
    | .error e =>
      if e.is_retryable then retryGo op (attempt + 1) r
      else (.error e, attempt + 1)

/-- `execute_with_retry` with retry budget `maxRetries` (3 in the source):
the result together with the number of invocations of the operation. -/
def execute_with_retry {α : Type} (op : Nat → Except MemoryError α)
    (maxRetries : Nat) : Except MemoryError α × Nat :=
  retryGo op 0 maxRetries

/-- Skipping a block of retryable failures advances the loop attempt by
attempt. -/
theorem retryGo_shift {α : Type} (op : Nat → Except MemoryError α)
    (errs : Nat → MemoryError) :
    ∀ (j a r : Nat), j ≤ r →
      (∀ i, a ≤ i → i < a + j → op i = .error (errs i) ∧ (errs i).is_retryable = true) →
      retryGo op a r = retryGo op (a + j) (r - j) := by
  intro j
  induction j with
  | zero => intro a r _ _; simp
  | succ j ih =>
    intro a r hjr hfail
    obtain ⟨r', rfl⟩ : ∃ r', r = r' + 1 :=
      ⟨r - 1, by omega⟩
    have hop : op a = .error (errs a) ∧ (errs a).is_retryable = true :=
      hfail a le_rfl (by omega)
    have step : retryGo op a (r' + 1) = retryGo op (a + 1) r' := by
      simp [retryGo, hop.1, hop.2]
    rw [step, ih (a + 1) r' (by omega)
      (fun i h1 h2 => hfail i (by omega) (by omega))]
    congr 1 <;> omega

end MongoMemoryRepository

namespace MongoMemoryRepository

/-- The three collections of the document store. -/
structure MongoState where
  memory_corpus : List (String × MemoryCorpus)
  interactions : List InteractionLog
  memory_fragments : List MemoryFragment
deriving DecidableEq

/-- `save_memory_corpus`: validate, then `replace_one` with upsert on the
unique `user_id` key. The corpus is stored exactly as given. -/
def save_memory_corpus (s : MongoState) (corpus : MemoryCorpus) :
    Except MemoryError MongoState :=
  match validate_memory_corpus corpus with
  | .error e => .error e
  | .ok _ =>
    .ok { s with memory_corpus := insertA s.memory_corpus corpus.user_id corpus }

/-- `get_memory_corpus`: validate, then `find_one` on `user_id`; absence is
an explicit `none`, not an error. -/
def get_memory_corpus (s : MongoState) (user_id : String) :
    Except MemoryError (Option MemoryCorpus) :=
  match validate_user_id user_id with
  | .error e => .error e
  | .ok _ => .ok (lookupA s.memory_corpus user_id)

/-- `save_interaction`: validate, then `insert_one` (append in insertion
order). -/
def save_interaction (s : MongoState) (user_id : String)
    (interaction : InteractionLog) : Except MemoryError MongoState :=
  match validate_user_id user_id with
  | .error e => .error e
  | .ok _ => .ok { s with interactions := s.interactions ++ [interaction] }

/-- Stable insertion into a timestamp-descending list, modelling the
database sort `{ timestamp: -1 }`. -/
def insertDesc (x : InteractionLog) : List InteractionLog → List InteractionLog
  | [] => [x]
  | y :: t => if y.timestamp < x.timestamp then x :: y :: t else y :: insertDesc x t

/-- Sort newest first by timestamp, modelling the database sort. -/
def sortByTimestampDesc : List InteractionLog → List InteractionLog
  | [] => []
  | x :: t => insertDesc x (sortByTimestampDesc t)

/-- The MongoDB `limit(n)` semantics: `n = 0` means no limit. -/
def mongoLimit {α : Type} (limit : Nat) (l : List α) : List α :=
  if limit = 0 then l else l.take limit

/-- `get_recent_interactions`: validate, then `find` with filter
`user_id`, sort `timestamp` descending, and the driver's limit. -/
def get_recent_interactions (s : MongoState) (user_id : String) (limit : Nat) :
    Except MemoryError (List InteractionLog) :=
  match validate_user_id user_id with
  | .error e => .error e
  | .ok _ =>
    .ok (mongoLimit limit
      (sortByTimestampDesc (s.interactions.filter (fun i => i.user_id = user_id))))

/-- `get_user_statistics`: validate, then derive the aggregate from the
first 1000 recent interactions; both interaction timestamps default to `now`
for a user with no interactions. (`total_memories` is left 0 by the source.) -/
def get_user_statistics (now : Int) (s : MongoState) (user_id : String) :
    Except MemoryError UserStatistics :=
  match get_recent_interactions s user_id 1000 with
  | .error e => .error e
  | .ok interactions =>
    match interactions with
    | [] =>
      .ok { user_id := user_id, total_interactions := 0,
            first_interaction := now, last_interaction := now,
            total_memories := 0 }
    | x :: t =>
      .ok { user_id := user_id,
            total_interactions := (x :: t).length,
            first_interaction := ((x :: t).getLast (by simp)).timestamp,
            last_interaction := x.timestamp,
            total_memories := 0 }

/-- `delete_user_data`: validate, then `delete_one` on the corpus (unique
key) and `delete_many` on interactions and fragments. -/
def delete_user_data (s : MongoState) (user_id : String) :
    Except MemoryError MongoState :=
  match validate_user_id user_id with
  | .error e => .error e
  | .ok _ =>
    .ok { memory_corpus := removeFirstA s.memory_corpus user_id,
          interactions := s.interactions.filter (fun i => ¬ i.user_id = user_id),
          memory_fragments := s.memory_fragments.filter (fun f => ¬ f.user_id = user_id) }

/-- The find filter of `search_memories`: user scope, closed time range on
`created_at`, memory-type membership, and — when the query text is
non-empty — the text-index match. The text index's matching behaviour lives
in the database, not in this repository, so it is a parameter `textMatch`
(query text against fragment content). -/
def fragFilter (textMatch : String → String → Bool) (q : MemoryQuery)
    (f : MemoryFragment) : Bool :=
  (match q.user_id with | some uid => f.user_id = uid | none => true)
    && (match q.time_range with
        | some r => r.1 ≤ f.created_at && f.created_at ≤ r.2
        | none => true)
    && (q.memory_types.isEmpty || q.memory_types.contains f.memory_type)
    && (q.query_text = "" || textMatch q.query_text f.content)

/-- The cursor loop of `search_memories` stops once the optional query
limit is reached; with no limit the whole result set is drained. -/
def applyLimit {α : Type} : Option Nat → List α → List α
  | none, l => l
  | some n, l => l.take n

/-- `search_memories`: validate the user id when one is given, then collect
matching fragments in collection order, stopping at the query limit. -/
def search_memories (textMatch : String → String → Bool) (s : MongoState)
    (q : MemoryQuery) : Except MemoryError (List MemoryFragment) :=
  match q.user_id with
  | some uid =>
    match validate_user_id uid with
    | .error e => .error e
    | .ok _ =>
      .ok (applyLimit q.limit (s.memory_fragments.filter (fragFilter textMatch q)))
  | none =>
    .ok (applyLimit q.limit (s.memory_fragments.filter (fragFilter textMatch q)))

/-! ### Partial update on raw documents

`update_memory_corpus` issues a field-level `$set`; the database applies it
on the raw BSON document, so the collection is modelled untyped here: each
document is a field list, `$set` overwrites or appends each supplied field,
and only the first document matching the unique key is touched. -/

/-- A raw stored document: field name to value. -/
abbrev MongoDoc := List (String × JVal)

/-- Read one field of a raw document. -/
def getField (d : MongoDoc) (k : String) : Option JVal := lookupA d k

/-- `$set` of several fields, applied left to right. -/
def setFields (d : MongoDoc) (u : List (String × JVal)) : MongoDoc :=
  u.foldl (fun d p => insertA d p.1 p.2) d

/-- `update_memory_corpus`: validate the user id, reject empty update maps,
build the update document (the supplied fields plus `updated_at := now`),
and `$set` it on the matched document; a zero matched count is reported as
`DocumentNotFound`. The update map is passed as a list of distinct keys (the
source iterates a `HashMap`). -/
def update_memory_corpus (now : Int) (col : List (String × MongoDoc))
    (user_id : String) (updates : List (String × JVal)) :
    Except MemoryError (List (String × MongoDoc)) :=
  match validate_user_id user_id with
  | .error e => .error e
  | .ok _ =>
    if updates = [] then
      .error (.validationError "updates" "Updates cannot be empty")
    else
      match lookupA col user_id with
      | none => .error (.documentNotFound "MemoryCorpus" user_id)
      | some _ =>
        .ok (updateFirstA col user_id
          (fun d => setFields d (updates ++ [("updated_at", JVal.jnum now)])))

end MongoMemoryRepository

/-! ## File-snapshot backend (src/services/memory/src/memory_data.rs)

Three in-memory maps; disk persistence (`save_to_file`) always succeeds in
the model, so the operations whose only failure mode is the disk are total.
This backend performs no input validation. -/

namespace MemoryDataRepository

/-- The in-memory state of `MemoryDataRepository`. -/
structure FileState where
  memory_corpus : List (String × MemoryCorpus)
  interactions : List (String × List InteractionLog)
  memory_fragments : List (String × List MemoryFragment)
deriving DecidableEq

/-- The empty repository (`MemoryDataRepository::new`). -/
def emptyState : FileState := ⟨[], [], []⟩

/-- `save_memory_corpus`: plain map insert, no validation, the corpus stored
exactly as given. -/
def save_memory_corpus (s : FileState) (corpus : MemoryCorpus) : FileState :=
  { s with memory_corpus := insertA s.memory_corpus corpus.user_id corpus }

/-- `get_memory_corpus`: map lookup. -/
def get_memory_corpus (s : FileState) (user_id : String) : Option MemoryCorpus :=
  lookupA s.memory_corpus user_id

/-- One step of the partial update: the recognised `core_profile` dot-paths,
each applied only when the value has the expected JSON type; every other
key is silently skipped. -/
def applyUpdate (c : MemoryCorpus) (kv : String × JVal) : MemoryCorpus :=
  if kv.1 = "core_profile.name" then
    match kv.2.as_str with
    | some v => { c with core_profile := { c.core_profile with name := some v } }
    | none => c
  else if kv.1 = "core_profile.age" then
    match kv.2.as_u64 with
    | some v => { c with core_profile := { c.core_profile with age := some v } }
    | none => c
  else if kv.1 = "core_profile.city" then
    match kv.2.as_str with
    | some v => { c with core_profile := { c.core_profile with city := some v } }
    | none => c
  else if kv.1 = "core_profile.occupation" then
    match kv.2.as_str with
    | some v => { c with core_profile := { c.core_profile with occupation := some v } }
    | none => c
  else if kv.1 = "core_profile.current_life_summary" then
    match kv.2.as_str with
    | some v =>
      { c with core_profile := { c.core_profile with current_life_summary := some v } }
    | none => c
  else
    c

/-- `update_memory_corpus`: apply the recognised updates in order to the
stored corpus and stamp `updated_at := now`; `DocumentNotFound` when the
user has no corpus. There is no empty-updates check in this backend. -/
def update_memory_corpus (now : Int) (s : FileState) (user_id : String)
    (updates : List (String × JVal)) : Except MemoryError FileState :=
  match lookupA s.memory_corpus user_id with
  | some c =>
    let c' := updates.foldl applyUpdate c
    .ok { s with memory_corpus :=
      updateFirstA s.memory_corpus user_id (fun _ => { c' with updated_at := now }) }
  | none => .error (.documentNotFound "MemoryCorpus" user_id)

/-- `save_interaction`: append to the user's interaction list. -/
def save_interaction (s : FileState) (user_id : String)
    (interaction : InteractionLog) : FileState :=
  { s with interactions := pushA s.interactions user_id interaction }

/-- The per-fragment search test: every whitespace token of the lowercased
query text must occur in the lowercased fragment content. -/
def fragMatches (query_text : String) (f : MemoryFragment) : Bool :=
  (splitWS (toLowerStr query_text)).all
    (fun keyword => containsSub (toLowerStr f.content) keyword)

/-- `search_memories`: only a user-scoped search does anything — with no
`user_id` the result is empty; otherwise the user's fragments are filtered
by the token test. The query's type filter, time range and limit are not
consulted by this backend. -/
def search_memories (s : FileState) (q : MemoryQuery) : List MemoryFragment :=
  match q.user_id with
  | some uid =>
    ((lookupA s.memory_fragments uid).getD []).filter (fragMatches q.query_text)
  | none => []

/-- `get_recent_interactions`: the first `limit` entries of the stored list
(which is in append order), with no sorting. -/
def get_recent_interactions (s : FileState) (user_id : String) (limit : Nat) :
    List InteractionLog :=
  match lookupA s.interactions user_id with
  | some interactions => interactions.take limit
  | none => []

/-- `delete_user_data`: remove the user's entry from all three maps. -/
def delete_user_data (s : FileState) (user_id : String) : FileState :=
  { memory_corpus := removeA s.memory_corpus user_id,
    interactions := removeA s.interactions user_id,
    memory_fragments := removeA s.memory_fragments user_id }

end MemoryDataRepository

/-! ## LLM client retry loop (src/services/llm/src/client.rs)

The HTTP exchange of one attempt is abstracted as an outcome: a success
(2xx with a parseable body), an HTTP failure with its status, optional
`Retry-After` header and extracted error message, or a transport failure.
The loop increments the attempt counter on entry (so attempts are
1-indexed), classifies the failure, and — when the error is retryable and
attempts remain — sleeps `2^(attempt-1)` seconds before trying again. The
model records that sleep sequence. -/

namespace DeepSeekClient

/-- The `LlmError` variants of the LLM service, with the wrapped
`reqwest` error as its message string. `rateLimited` is the variant the
client constructs for a 429 response. -/
inductive LlmError where
  | apiRequestFailed (message : String)
  | invalidApiResponse (details : String)
  | authenticationFailed (reason : String)
  | rateLimited (retry_after_seconds : Nat)
  | tokenLimitExceeded (limit : Nat)
  | contentFiltered (reason : String)
  | networkError (source : String)
  | timeout (seconds : Nat)
deriving DecidableEq

/-- `LlmError::is_retryable`: network errors, timeouts and generic API
request failures; every other variant — `rateLimited` included — is not
matched and therefore not retried. -/
def LlmError.is_retryable : LlmError → Bool
  | .networkError _ => true
  | .timeout _ => true
  | .apiRequestFailed _ => true
  | _ => false

/-- One attempt's observable outcome at the HTTP boundary. -/
inductive ApiOutcome where
  | success
  | httpFailure (status : Nat) (retryAfter : Option Nat) (message : String)
  | sendFailure (source : String)
deriving DecidableEq

/-- The error-classification arm of `generate_response`: 401, 429 (where the
`Retry-After` hint, defaulting to 0, is stored in the error), 400 with its
two message probes, and the catch-all. -/
def classify_status (status : Nat) (retryAfter : Option Nat) (message : String) :
    LlmError :=
  if status = 401 then .authenticationFailed message
  else if status = 429 then .rateLimited (retryAfter.getD 0)
  else if status = 400 then
    if containsSub message "token limit" then .tokenLimitExceeded 0
    else if containsSub message "content filtered" then .contentFiltered message
    else .apiRequestFailed message
  else .apiRequestFailed message

/-- The error produced by an attempt, or `none` on success. -/
def classifyOutcome : ApiOutcome → Option LlmError
  | .success => none
  | .httpFailure status retryAfter message =>
    some (classify_status status retryAfter message)
  | .sendFailure source => some (.networkError source)

/-- The retry loop: `attempt` is the 1-indexed attempt number (the counter
after the increment at the top of the loop) and `remaining` is
`max_retries - (attempt - 1)`, the number of `attempt <= max_retries`
checks that can still pass. Returns the attempt number that succeeded (the
source builds the response from it) or the final error, together with the
sequence of backoff sleeps (in seconds) actually performed. -/
def llmGo (outcomes : Nat → ApiOutcome) (attempt : Nat) :
    Nat → Except LlmError Nat × List Nat
  | 0 =>
    match classifyOutcome (outcomes attempt) with
    | none => (.ok attempt, [])
    | some err => (.error err, [])
  | r + 1 =>
    match classifyOutcome (outcomes attempt) with
    | none => (.ok attempt, [])
    | some err =>
      if err.is_retryable then
        let rest := llmGo outcomes (attempt + 1) r
        (rest.1, 2 ^ (attempt - 1) :: rest.2)
      else (.error err, [])

/-- The retry portion of `generate_response`: attempts start at 1, and a
retry is allowed while `attempt <= max_retries`. -/
def generate_response_retry (outcomes : Nat → ApiOutcome) (max_retries : Nat) :
    Except LlmError Nat × List Nat :=
  llmGo outcomes 1 max_retries

end DeepSeekClient

/-- Decidable equality for `Except`, used to evaluate the closed witness
statements. -/
instance exceptDecEq {e a : Type} [DecidableEq e] [DecidableEq a] :
    DecidableEq (Except e a) := fun x y =>
  match x, y with
  | .ok v, .ok w => if h : v = w then isTrue (by rw [h]) else isFalse (by simp [h])
  | .error v, .error w => if h : v = w then isTrue (by rw [h]) else isFalse (by simp [h])
  | .ok _, .error _ => isFalse (by simp)
  | .error _, .ok _ => isFalse (by simp)

/-! ## Claims -/

/-- Concrete fragments and states used by the closed witness and
counterexample theorems below. -/
def fragRust1 : MemoryFragment :=
  ⟨"f1", "userA", .episodic, "rust programming", [], 0⟩

def fragRust2 : MemoryFragment :=
  ⟨"f2", "userA", .semantic, "rust language features", [], 0⟩

def fragOther : MemoryFragment :=
  ⟨"f3", "userB", .episodic, "other", [], 0⟩

def stateC3 : MemoryDataRepository.FileState :=
  ⟨[], [], [("userA", [fragRust1, fragRust2]), ("userB", [fragOther])]⟩

def queryC3 : MemoryQuery := ⟨"rust", some "userA", none, [], some 1⟩

/-- C10: in the file-snapshot backend, a query without a `user_id` returns
the empty list, whatever the stored fragments, query text, filters or
limit. -/
theorem c10_search_without_user_is_empty (s : MemoryDataRepository.FileState)
    (q : MemoryQuery) (h : q.user_id = none) :
    MemoryDataRepository.search_memories s q = [] := by
  simp [MemoryDataRepository.search_memories, h]

def queryC10 : MemoryQuery := ⟨"rust", none, none, [], some 10⟩

theorem c10_witness :
    queryC10.user_id = none ∧
      MemoryDataRepository.search_memories stateC3 queryC10 = [] :=
  ⟨rfl, c10_search_without_user_is_empty stateC3 queryC10 rfl⟩

/-- C6 (amended): `is_retryable` holds exactly for the errors the
specification lists — connection failures and backend errors carrying a
network, timeout or connection substring — and additionally for concurrency
conflicts, which the code also retries. -/
theorem c6_is_retryable_characterization (e : MemoryError) :
    e.is_retryable = (spec_retryable e || e.isConcurrencyConflict) := by
  cases e <;>
    simp [MemoryError.is_retryable, spec_retryable, MemoryError.isConcurrencyConflict]

/-- C6 counterexample: a concurrency conflict is retryable in the code but
is none of the retryable kinds enumerated by the claim. -/
theorem c6_concurrency_conflict_retryable :
    (MemoryError.concurrencyConflict "memory_corpus").is_retryable = true ∧
      spec_retryable (MemoryError.concurrencyConflict "memory_corpus") = false :=
  ⟨rfl, rfl⟩

/-- Two interactions of the same user, the second strictly newer. -/
def interC2a : InteractionLog := ⟨"log-1", "user-1", 1, .inbound, "first message"⟩

def interC2b : InteractionLog := ⟨"log-2", "user-1", 2, .outbound, "first reply"⟩

def stateC2 : MemoryDataRepository.FileState :=
  MemoryDataRepository.save_interaction
    (MemoryDataRepository.save_interaction MemoryDataRepository.emptyState
      "user-1" interC2a)
    "user-1" interC2b

def mongoStateC2 : MongoMemoryRepository.MongoState := ⟨[], [interC2a, interC2b], []⟩

/-- C2: after saving an older interaction and then a newer one, the
file-snapshot backend's `get_recent_interactions(user, 1)` returns the
oldest entry (it takes from the front of the append-ordered list without
sorting), while the document-store backend — the same trait method — sorts
newest first and returns the newer one. -/
theorem c2_file_backend_returns_oldest_first :
    MemoryDataRepository.get_recent_interactions stateC2 "user-1" 1 = [interC2a] ∧
      interC2a.timestamp < interC2b.timestamp ∧
      interC2a ≠ interC2b ∧
      MongoMemoryRepository.get_recent_interactions mongoStateC2 "user-1" 1 =
        .ok [interC2b] := by
  refine ⟨?_, by decide, by decide, ?_⟩ <;> rfl

/-- C3 (amended): a user-scoped search in the file-snapshot backend returns
exactly the fragments stored for that user whose lowercased content contains
every whitespace-delimited token of the lowercased query text; fragments
stored for other users never appear. -/
theorem c3_search_scoped_token_match (s : MemoryDataRepository.FileState)
    (q : MemoryQuery) (uid : String) (f : MemoryFragment)
    (h : q.user_id = some uid) :
    f ∈ MemoryDataRepository.search_memories s q ↔
      f ∈ (lookupA s.memory_fragments uid).getD [] ∧
        ∀ kw ∈ splitWS (toLowerStr q.query_text),
          containsSub (toLowerStr f.content) kw = true := by
  simp [MemoryDataRepository.search_memories, h, MemoryDataRepository.fragMatches,
    List.mem_filter, List.all_eq_true]

/-- C3 counterexample: with `limit = 1` and two matching fragments the
file-snapshot backend returns both — the query limit is never applied. -/
theorem c3_limit_not_applied :
    queryC3.limit = some 1 ∧
      MemoryDataRepository.search_memories stateC3 queryC3 =
        [fragRust1, fragRust2] :=
  ⟨rfl, by rfl⟩

theorem c3_witness :
    queryC3.user_id = some "userA" ∧
      (fragRust1 ∈ MemoryDataRepository.search_memories stateC3 queryC3 ↔
        fragRust1 ∈ (lookupA stateC3.memory_fragments "userA").getD [] ∧
          ∀ kw ∈ splitWS (toLowerStr queryC3.query_text),
            containsSub (toLowerStr fragRust1.content) kw = true) :=
  ⟨rfl, c3_search_scoped_token_match stateC3 queryC3 "userA" fragRust1 rfl⟩

/-- C1: the retry executor, with the source's fixed budget generalised to a
parameter `N` (the source instantiates `MAX_RETRIES = 3`). If the operation
fails retryably on the first `N` attempts and succeeds on attempt `N+1`, it
is invoked exactly `N+1` times and the success is returned; a non-retryable
failure on the first attempt is returned after exactly one invocation,
whatever `N`; and when every attempt fails retryably the budget is
exhausted after `N+1` invocations and the error of the last attempt is
returned. -/
theorem c1_execute_with_retry_contract {α : Type} (op : Nat → Except MemoryError α)
    (N : Nat) (errs : Nat → MemoryError) :
    (∀ v : α,
      (∀ i, i < N → op i = .error (errs i) ∧ (errs i).is_retryable = true) →
      op N = .ok v →
      MongoMemoryRepository.execute_with_retry op N = (.ok v, N + 1))
    ∧ ((errs 0).is_retryable = false → op 0 = .error (errs 0) →
      MongoMemoryRepository.execute_with_retry op N = (.error (errs 0), 1))
    ∧ ((∀ i, i ≤ N → op i = .error (errs i) ∧ (errs i).is_retryable = true) →
      MongoMemoryRepository.execute_with_retry op N = (.error (errs N), N + 1)) := by
  refine ⟨?_, ?_, ?_⟩
  · intro v hfail hok
    unfold MongoMemoryRepository.execute_with_retry
    rw [MongoMemoryRepository.retryGo_shift op errs N 0 N le_rfl
      (fun i h1 h2 => hfail i (by omega))]
    simp [MongoMemoryRepository.retryGo, hok]
  · intro hret hop
    unfold MongoMemoryRepository.execute_with_retry
    cases N with
    | zero => simp [MongoMemoryRepository.retryGo, hop]
    | succ n => simp [MongoMemoryRepository.retryGo, hop, hret]
  · intro hfail
    unfold MongoMemoryRepository.execute_with_retry
    rw [MongoMemoryRepository.retryGo_shift op errs N 0 N le_rfl
      (fun i h1 h2 => hfail i (by omega))]
    simp [MongoMemoryRepository.retryGo, (hfail N le_rfl).1]

/-- An operation failing retryably on attempts 0-2 and succeeding on
attempt 3, for the executor witness. -/
def opC1 : Nat → Except MemoryError Nat :=
  fun i => if i < 3 then .error (.databaseConnectionFailed "network reset") else .ok 42

def errsC1 : Nat → MemoryError :=
  fun _ => .databaseConnectionFailed "network reset"

theorem c1_witness :
    MongoMemoryRepository.execute_with_retry opC1 3 = (.ok 42, 4) :=
  (c1_execute_with_retry_contract opC1 3 errsC1).1 42 (by decide) (by decide)

/-- The sleep sequence of the LLM retry loop from 1-indexed attempt `a` is a
run of consecutive powers of two starting at `2 ^ (a - 1)`. -/
theorem llmGo_delays (outcomes : Nat → DeepSeekClient.ApiOutcome) :
    ∀ (r a : Nat), 1 ≤ a →
      ∃ k, (DeepSeekClient.llmGo outcomes a r).2 =
        (List.range k).map (fun j => 2 ^ (a - 1 + j)) := by
  intro r
  induction r with
  | zero =>
    intro a ha
    refine ⟨0, ?_⟩
    simp only [DeepSeekClient.llmGo]
    cases DeepSeekClient.classifyOutcome (outcomes a) <;> simp
  | succ r ih =>
    intro a ha
    simp only [DeepSeekClient.llmGo]
    cases hcl : DeepSeekClient.classifyOutcome (outcomes a) with
    | none => exact ⟨0, by simp⟩
    | some err =>
      by_cases hr : err.is_retryable = true
      · obtain ⟨k, hk⟩ := ih (a + 1) (by omega)
        refine ⟨k + 1, ?_⟩
        have hfun : ((fun j => 2 ^ (a - 1 + j)) ∘ Nat.succ) = (fun j : Nat => 2 ^ (a + j)) := by
          funext j
          simp only [Function.comp]
          congr 1
          omega
        simp only [hr, if_true]
        simp [hk, List.range_succ_eq_map, List.map_map, hfun]
      · rw [Bool.not_eq_true] at hr
        exact ⟨0, by simp [hr]⟩

/-- C7 (amended): on the LLM call path the backoff sleeps are exactly
`2^0, 2^1, …` seconds — the delay before re-running attempt `i` (0-indexed)
is always `2^i`, never combined with the server's `Retry-After` hint. A 429
response stores the hint inside the `rateLimited` error value, which is not
a retryable error, so the call returns it immediately with no sleep at
all. -/
theorem c7_backoff_is_pure_powers_of_two (outcomes : Nat → DeepSeekClient.ApiOutcome)
    (max_retries : Nat) :
    (∃ k, (DeepSeekClient.generate_response_retry outcomes max_retries).2 =
      (List.range k).map (fun j => 2 ^ j))
    ∧ (∀ ra msg, outcomes 1 = DeepSeekClient.ApiOutcome.httpFailure 429 ra msg →
        DeepSeekClient.generate_response_retry outcomes max_retries =
          (.error (.rateLimited (ra.getD 0)), [])) := by
  constructor
  · obtain ⟨k, hk⟩ := llmGo_delays outcomes max_retries 1 le_rfl
    exact ⟨k, by simpa using hk⟩
  · intro ra msg h1
    unfold DeepSeekClient.generate_response_retry
    cases max_retries with
    | zero =>
      simp [DeepSeekClient.llmGo, h1, DeepSeekClient.classifyOutcome,
        DeepSeekClient.classify_status, DeepSeekClient.LlmError.is_retryable]
    | succ n =>
      simp [DeepSeekClient.llmGo, h1, DeepSeekClient.classifyOutcome,
        DeepSeekClient.classify_status, DeepSeekClient.LlmError.is_retryable]

/-- A first attempt answered 500 with a `Retry-After: 100` header, then
success. -/
def outcomesC7 : Nat → DeepSeekClient.ApiOutcome :=
  fun n => if n = 1 then .httpFailure 500 (some 100) "server error" else .success

/-- C7 counterexample: with a `Retry-After` of 100 seconds present, the
sleep before the second attempt is still `2^0 = 1` second, not the larger
of the two. -/
theorem c7_retry_after_ignored :
    (DeepSeekClient.generate_response_retry outcomesC7 3).2 = [1] ∧
      (1 : Nat) ≠ max (2 ^ 0) 100 :=
  ⟨rfl, by decide⟩

/-- A first attempt answered 429 with a `Retry-After: 100` header. -/
def outcomesC7b : Nat → DeepSeekClient.ApiOutcome :=
  fun n => if n = 1 then .httpFailure 429 (some 100) "rate limited" else .success

theorem c7_witness :
    DeepSeekClient.generate_response_retry outcomesC7b 3 =
      (.error (.rateLimited 100), []) :=
  (c7_backoff_is_pure_powers_of_two outcomesC7b 3).2 (some 100) "rate limited" rfl

/-- An invalid input always surfaces as some `ValidationError` from
`validate_memory_corpus`. -/
theorem validate_memory_corpus_invalid (corpus : MemoryCorpus)
    (h : corpus.user_id = "" ∨ 255 < corpus.user_id.length ∨
      (containsChar corpus.user_id '@' = true ∧ containsChar corpus.user_id '.' = false) ∨
      corpus.version = "" ∨ corpus.updated_at < corpus.created_at) :
    ∃ f r, MongoMemoryRepository.validate_memory_corpus corpus =
      .error (.validationError f r) := by
  unfold MongoMemoryRepository.validate_memory_corpus MongoMemoryRepository.validate_user_id
  by_cases h1 : corpus.user_id = ""
  · exact ⟨"user_id", "User ID cannot be empty", by simp [h1]⟩
  · by_cases h2 : 255 < corpus.user_id.length
    · exact ⟨"user_id", "User ID cannot exceed 255 characters", by simp [h1, h2]⟩
    · by_cases h3 : (containsChar corpus.user_id '@' && !containsChar corpus.user_id '.') = true
      · exact ⟨"user_id", "Invalid email format", by simp [h1, h2, h3]⟩
      · by_cases h4 : corpus.version = ""
        · exact ⟨"version", "Version cannot be empty", by simp [h1, h2, h3, h4]⟩
        · by_cases h5 : corpus.updated_at < corpus.created_at
          · exact ⟨"updated_at", "Updated time cannot be before created time",
              by simp [h1, h2, h3, h4, h5]⟩
          · exfalso
            rcases h with h | h | h | h | h
            · exact h1 h
            · exact h2 h
            · exact h3 (by simp [h.1, h.2])
            · exact h4 h
            · exact h5 h

/-- C5 (amended): `save_memory_corpus` in the document store rejects every
invalid corpus (empty or over-long or malformed-email user id, empty
version, `updated_at < created_at`) with a `ValidationError`, and on valid
input upserts the corpus by `user_id`, storing it exactly as given — in
particular the stored `updated_at` is the corpus's own value, not the time
of the save — while leaving every other user's corpus untouched. The
file-snapshot backend stores any corpus verbatim with no validation at
all. -/
theorem c5_save_corpus_validate_upsert (s : MongoMemoryRepository.MongoState)
    (corpus : MemoryCorpus) :
    ((corpus.user_id = "" ∨ 255 < corpus.user_id.length ∨
        (containsChar corpus.user_id '@' = true ∧ containsChar corpus.user_id '.' = false) ∨
        corpus.version = "" ∨ corpus.updated_at < corpus.created_at) →
      ∃ f r, MongoMemoryRepository.save_memory_corpus s corpus =
        .error (.validationError f r))
    ∧ (MongoMemoryRepository.validate_memory_corpus corpus = .ok () →
        MongoMemoryRepository.save_memory_corpus s corpus =
          .ok { s with memory_corpus := insertA s.memory_corpus corpus.user_id corpus }
        ∧ ∀ s', MongoMemoryRepository.save_memory_corpus s corpus = .ok s' →
            lookupA s'.memory_corpus corpus.user_id = some corpus
            ∧ ∀ u', u' ≠ corpus.user_id →
                lookupA s'.memory_corpus u' = lookupA s.memory_corpus u')
    ∧ (∀ fs : MemoryDataRepository.FileState,
        MemoryDataRepository.get_memory_corpus
          (MemoryDataRepository.save_memory_corpus fs corpus) corpus.user_id =
          some corpus) := by
  refine ⟨?_, ?_, ?_⟩
  · intro h
    obtain ⟨f, r, hv⟩ := validate_memory_corpus_invalid corpus h
    exact ⟨f, r, by simp [MongoMemoryRepository.save_memory_corpus, hv]⟩
  · intro hval
    have hsave : MongoMemoryRepository.save_memory_corpus s corpus =
        .ok { s with memory_corpus := insertA s.memory_corpus corpus.user_id corpus } := by
      simp [MongoMemoryRepository.save_memory_corpus, hval]
    refine ⟨hsave, ?_⟩
    intro s' hs'
    rw [hsave] at hs'
    obtain rfl := Except.ok.inj hs'
    exact ⟨lookupA_insertA_self _ _ _,
      fun u' hu' => lookupA_insertA_ne _ _ _ _ hu'⟩
  · intro fs
    simp [MemoryDataRepository.get_memory_corpus, MemoryDataRepository.save_memory_corpus,
      lookupA_insertA_self]

/-- A valid corpus whose own `updated_at` is 5. -/
def corpusC5 : MemoryCorpus := ⟨"alice@mail.com", "1.0", 0, 5, CoreProfile.default⟩

def mongoEmptyState : MongoMemoryRepository.MongoState := ⟨[], [], []⟩

/-- C5 counterexample: saving a corpus whose `updated_at` is 5 stores 5 —
whatever the wall-clock time of the save (say 100) — so the stored
`updated_at` is not the time of the save. -/
theorem c5_updated_at_not_set_to_save_time :
    (MongoMemoryRepository.save_memory_corpus mongoEmptyState corpusC5).map
      (fun st => (lookupA st.memory_corpus "alice@mail.com").map
        (fun c => c.updated_at)) = .ok (some 5) ∧ (5 : Int) ≠ 100 :=
  ⟨rfl, by decide⟩

theorem c5_witness :
    MongoMemoryRepository.validate_memory_corpus corpusC5 = .ok () ∧
      MongoMemoryRepository.save_memory_corpus mongoEmptyState corpusC5 =
        .ok { mongoEmptyState with
          memory_corpus := insertA mongoEmptyState.memory_corpus corpusC5.user_id corpusC5 } :=
  ⟨rfl, ((c5_save_corpus_validate_upsert mongoEmptyState corpusC5).2.1 rfl).1⟩

/-- Folding `$set` over more fields never disturbs a field outside the
update document. -/
theorem getField_setFields_not_mem (d : MongoMemoryRepository.MongoDoc)
    (u : List (String × JVal)) (k : String) (h : k ∉ u.map Prod.fst) :
    MongoMemoryRepository.getField (MongoMemoryRepository.setFields d u) k =
      MongoMemoryRepository.getField d k := by
  induction u generalizing d with
  | nil => rfl
  | cons p u' ih =>
    obtain ⟨k1, v1⟩ := p
    simp only [List.map_cons, List.mem_cons] at h
    push_neg at h
    have step : MongoMemoryRepository.setFields d ((k1, v1) :: u') =
        MongoMemoryRepository.setFields (insertA d k1 v1) u' := rfl
    rw [step, ih (insertA d k1 v1) h.2]
    exact lookupA_insertA_ne d k1 k v1 h.1

/-- The last-set value of a field wins. -/
theorem getField_setFields_last (d : MongoMemoryRepository.MongoDoc)
    (u : List (String × JVal)) (k : String) (v : JVal) :
    MongoMemoryRepository.getField
      (MongoMemoryRepository.setFields d (u ++ [(k, v)])) k = some v := by
  have step : MongoMemoryRepository.setFields d (u ++ [(k, v)]) =
      insertA (MongoMemoryRepository.setFields d u) k v := by
    simp [MongoMemoryRepository.setFields, List.foldl_append]
  rw [step]
  exact lookupA_insertA_self _ _ _

/-- The dot-paths the file backend recognises. -/
def recognisedUpdatePaths : List String :=
  ["core_profile.name", "core_profile.age", "core_profile.city",
   "core_profile.occupation", "core_profile.current_life_summary"]

/-- An unrecognised path is skipped without effect. -/
theorem applyUpdate_not_recognised (c : MemoryCorpus) (p : String × JVal)
    (h : p.1 ∉ recognisedUpdatePaths) : MemoryDataRepository.applyUpdate c p = c := by
  obtain ⟨k, v⟩ := p
  simp only [recognisedUpdatePaths, List.mem_cons, List.mem_singleton] at h
  push_neg at h
  obtain ⟨n1, n2, n3, n4, n5⟩ := h
  simp [MemoryDataRepository.applyUpdate, n1, n2, n3, n4, n5]

/-- Every update step touches only the core profile. -/
theorem applyUpdate_preserves_frame (c : MemoryCorpus) (p : String × JVal) :
    (MemoryDataRepository.applyUpdate c p).user_id = c.user_id ∧
      (MemoryDataRepository.applyUpdate c p).version = c.version ∧
      (MemoryDataRepository.applyUpdate c p).created_at = c.created_at := by
  obtain ⟨k, v⟩ := p
  simp only [MemoryDataRepository.applyUpdate]
  repeat' split
  all_goals exact ⟨rfl, rfl, rfl⟩

/-- Folded over a whole update list, the non-profile fields survive. -/
theorem foldl_applyUpdate_preserves_frame (updates : List (String × JVal))
    (c : MemoryCorpus) :
    (updates.foldl MemoryDataRepository.applyUpdate c).user_id = c.user_id ∧
      (updates.foldl MemoryDataRepository.applyUpdate c).version = c.version ∧
      (updates.foldl MemoryDataRepository.applyUpdate c).created_at = c.created_at := by
  induction updates generalizing c with
  | nil => exact ⟨rfl, rfl, rfl⟩
  | cons p u' ih =>
    have h1 := applyUpdate_preserves_frame c p
    have h2 := ih (MemoryDataRepository.applyUpdate c p)
    simp only [List.foldl_cons]
    exact ⟨h2.1.trans h1.1, h2.2.1.trans h1.2.1, h2.2.2.trans h1.2.2⟩

/-- A list of only unrecognised paths changes nothing. -/
theorem foldl_applyUpdate_all_unrecognised (updates : List (String × JVal))
    (c : MemoryCorpus) (h : ∀ p ∈ updates, p.1 ∉ recognisedUpdatePaths) :
    updates.foldl MemoryDataRepository.applyUpdate c = c := by
  induction updates generalizing c with
  | nil => rfl
  | cons p u' ih =>
    simp only [List.foldl_cons]
    rw [applyUpdate_not_recognised c p (h p (List.mem_cons_self p u'))]
    exact ih c (fun q hq => h q (List.mem_cons_of_mem p hq))

/-- C4 (amended): partial update semantics per backend. In the document
store, an empty update map is rejected with a `ValidationError`, a missing
corpus with `DocumentNotFound`, and a successful update `$set`s exactly the
supplied fields plus `updated_at := now`, leaving every other field and
every other user's document unchanged. In the file-snapshot backend there
is no empty-updates check — updating an existing corpus always succeeds,
`updated_at` is always bumped to `now`, unrecognised dot-paths are silently
skipped (so an all-unrecognised or empty list changes only `updated_at`),
and a missing corpus is reported as `DocumentNotFound`. -/
theorem c4_update_corpus_semantics (now : Int) :
    (∀ (col : List (String × MongoMemoryRepository.MongoDoc)) uid,
      MongoMemoryRepository.validate_user_id uid = .ok () →
      MongoMemoryRepository.update_memory_corpus now col uid [] =
        .error (.validationError "updates" "Updates cannot be empty"))
    ∧ (∀ col uid updates, updates ≠ [] →
        MongoMemoryRepository.validate_user_id uid = .ok () →
        lookupA col uid = none →
        MongoMemoryRepository.update_memory_corpus now col uid updates =
          .error (.documentNotFound "MemoryCorpus" uid))
    ∧ (∀ col uid updates d, updates ≠ [] →
        MongoMemoryRepository.validate_user_id uid = .ok () →
        lookupA col uid = some d →
        ∃ col', MongoMemoryRepository.update_memory_corpus now col uid updates = .ok col'
          ∧ (∃ d', lookupA col' uid = some d'
              ∧ MongoMemoryRepository.getField d' "updated_at" = some (.jnum now)
              ∧ ∀ k, k ∉ updates.map Prod.fst → k ≠ "updated_at" →
                  MongoMemoryRepository.getField d' k = MongoMemoryRepository.getField d k)
          ∧ ∀ u', u' ≠ uid → lookupA col' u' = lookupA col u')
    ∧ (∀ (s : MemoryDataRepository.FileState) uid updates,
        lookupA s.memory_corpus uid = none →
        MemoryDataRepository.update_memory_corpus now s uid updates =
          .error (.documentNotFound "MemoryCorpus" uid))
    ∧ (∀ s uid updates c, lookupA s.memory_corpus uid = some c →
        ∃ s', MemoryDataRepository.update_memory_corpus now s uid updates = .ok s'
          ∧ ∃ c', MemoryDataRepository.get_memory_corpus s' uid = some c'
            ∧ c'.updated_at = now
            ∧ c'.user_id = c.user_id ∧ c'.version = c.version
            ∧ c'.created_at = c.created_at
            ∧ (updates = [] → c'.core_profile = c.core_profile)
            ∧ ((∀ p ∈ updates, p.1 ∉ recognisedUpdatePaths) →
                c'.core_profile = c.core_profile)) := by
  refine ⟨?_, ?_, ?_, ?_, ?_⟩
  · intro col uid hv
    simp [MongoMemoryRepository.update_memory_corpus, hv]
  · intro col uid updates hne hv hnone
    simp [MongoMemoryRepository.update_memory_corpus, hv, hne, hnone]
  · intro col uid updates d hne hv hsome
    refine ⟨updateFirstA col uid
      (fun d0 => MongoMemoryRepository.setFields d0
        (updates ++ [("updated_at", JVal.jnum now)])), ?_, ?_, ?_⟩
    · simp [MongoMemoryRepository.update_memory_corpus, hv, hne, hsome]
    · refine ⟨MongoMemoryRepository.setFields d (updates ++ [("updated_at", JVal.jnum now)]),
        lookupA_updateFirstA_self _ _ _ _ hsome,
        getField_setFields_last _ _ _ _, ?_⟩
      intro k hk hk2
      have : k ∉ (updates ++ [("updated_at", JVal.jnum now)]).map Prod.fst := by
        simp only [List.map_append, List.mem_append]
        rintro (hmem | hmem)
        · exact hk hmem
        · simp at hmem
          exact hk2 hmem
      exact getField_setFields_not_mem d _ k this
    · intro u' hu'
      exact lookupA_updateFirstA_ne _ _ _ _ hu'
  · intro s uid updates hnone
    simp [MemoryDataRepository.update_memory_corpus, hnone]
  · intro s uid updates c hsome
    refine ⟨{ s with memory_corpus :=
        (updateFirstA s.memory_corpus uid (fun _ =>
          { (updates.foldl MemoryDataRepository.applyUpdate c) with updated_at := now })) },
      by simp [MemoryDataRepository.update_memory_corpus, hsome], ?_⟩
    refine ⟨{ updates.foldl MemoryDataRepository.applyUpdate c with updated_at := now }, ?_,
      rfl, ?_, ?_, ?_, ?_, ?_⟩
    · simp only [MemoryDataRepository.get_memory_corpus]
      exact lookupA_updateFirstA_self _ _ _ _ hsome
    · exact (foldl_applyUpdate_preserves_frame updates c).1
    · exact (foldl_applyUpdate_preserves_frame updates c).2.1
    · exact (foldl_applyUpdate_preserves_frame updates c).2.2
    · intro hempty
      subst hempty
      rfl
    · intro hall
      rw [foldl_applyUpdate_all_unrecognised updates c hall]

/-- A stored corpus for user `bob` and its state after an empty update at
time 100. -/
def corpusBob : MemoryCorpus := ⟨"bob", "1.0", 0, 0, CoreProfile.default⟩

def stateBob : MemoryDataRepository.FileState := ⟨[("bob", corpusBob)], [], []⟩

def stateBobAfter : MemoryDataRepository.FileState :=
  ⟨[("bob", { corpusBob with updated_at := 100 })], [], []⟩

/-- C4 counterexample: the file-snapshot backend accepts an empty update
map — the call succeeds (bumping only `updated_at`) instead of failing with
a `ValidationError`. -/
theorem c4_empty_updates_accepted_by_file_backend :
    MemoryDataRepository.update_memory_corpus 100 stateBob "bob" [] =
      .ok stateBobAfter := rfl

def docColBob : List (String × MongoMemoryRepository.MongoDoc) :=
  [("bob", [("version", .jstr "1.0")])]

theorem c4_witness :
    MongoMemoryRepository.update_memory_corpus 100 docColBob "bob" [] =
      .error (.validationError "updates" "Updates cannot be empty") :=
  (c4_update_corpus_semantics 100).1 docColBob "bob" rfl

/-- Filtering a user's documents out of a collection leaves nothing of that
user to find. -/
theorem filter_out_then_select_eq_nil (l : List InteractionLog) (u : String) :
    (l.filter (fun i => ¬ i.user_id = u)).filter (fun i => i.user_id = u) = [] := by
  induction l with
  | nil => rfl
  | cons x t ih => by_cases hx : x.user_id = u <;> simp [hx, ih]

/-- C8: deletion completeness and idempotence.  File backend: after
`delete_user_data`, the corpus is absent, recent interactions are empty for
every limit, and a search scoped to the user returns nothing; deleting a
user with no stored data returns the state unchanged.  Document store: a
valid user id always deletes successfully, after which the corpus lookup is
absent (`delete_one` removes the unique document), recent interactions are
empty for every limit, no remaining fragment belongs to the user, and
deleting a user with no stored data leaves all three collections
unchanged. -/
theorem c8_delete_user_data_complete :
    (∀ (s : MemoryDataRepository.FileState) (u : String),
      MemoryDataRepository.get_memory_corpus
        (MemoryDataRepository.delete_user_data s u) u = none
      ∧ (∀ N, MemoryDataRepository.get_recent_interactions
          (MemoryDataRepository.delete_user_data s u) u N = [])
      ∧ (∀ q : MemoryQuery, q.user_id = some u →
          MemoryDataRepository.search_memories
            (MemoryDataRepository.delete_user_data s u) q = []))
    ∧ (∀ s u, MemoryDataRepository.get_memory_corpus s u = none →
        lookupA s.interactions u = none →
        lookupA s.memory_fragments u = none →
        MemoryDataRepository.delete_user_data s u = s)
    ∧ (∀ (s : MongoMemoryRepository.MongoState) (u : String),
        MongoMemoryRepository.validate_user_id u = .ok () →
        ∃ s', MongoMemoryRepository.delete_user_data s u = .ok s'
          ∧ ((s.memory_corpus.map Prod.fst).Nodup →
              MongoMemoryRepository.get_memory_corpus s' u = .ok none)
          ∧ (∀ N, MongoMemoryRepository.get_recent_interactions s' u N = .ok [])
          ∧ (∀ f ∈ s'.memory_fragments, f.user_id ≠ u)
          ∧ (lookupA s.memory_corpus u = none →
              (∀ i ∈ s.interactions, i.user_id ≠ u) →
              (∀ f ∈ s.memory_fragments, f.user_id ≠ u) →
              s' = s)) := by
  refine ⟨?_, ?_, ?_⟩
  · intro s u
    refine ⟨?_, ?_, ?_⟩
    · simp [MemoryDataRepository.get_memory_corpus,
        MemoryDataRepository.delete_user_data, lookupA_removeA]
    · intro N
      simp [MemoryDataRepository.get_recent_interactions,
        MemoryDataRepository.delete_user_data, lookupA_removeA]
    · intro q hq
      simp [MemoryDataRepository.search_memories, hq,
        MemoryDataRepository.delete_user_data, lookupA_removeA]
  · intro s u hc hi hf
    obtain ⟨mc, it, fr⟩ := s
    have hc' : lookupA mc u = none := hc
    simp only [MemoryDataRepository.delete_user_data]
    rw [removeA_of_lookupA_none _ _ hc', removeA_of_lookupA_none _ _ hi,
      removeA_of_lookupA_none _ _ hf]
  · intro s u hv
    refine ⟨⟨removeFirstA s.memory_corpus u,
        s.interactions.filter (fun i => ¬ i.user_id = u),
        s.memory_fragments.filter (fun f => ¬ f.user_id = u)⟩,
      by simp [MongoMemoryRepository.delete_user_data, hv], ?_, ?_, ?_, ?_⟩
    · intro hnd
      simp [MongoMemoryRepository.get_memory_corpus, hv,
        lookupA_removeFirstA_of_nodup _ _ hnd]
    · intro N
      simp [MongoMemoryRepository.get_recent_interactions, hv,
        filter_out_then_select_eq_nil, MongoMemoryRepository.sortByTimestampDesc,
        MongoMemoryRepository.mongoLimit]
    · intro f hf
      simp only [List.mem_filter, decide_not, Bool.not_eq_true', decide_eq_false_iff_not] at hf
      exact hf.2
    · intro hcn hin hfn
      obtain ⟨mc, it, fr⟩ := s
      simp only at hcn hin hfn ⊢
      rw [removeFirstA_of_lookupA_none _ _ hcn,
        List.filter_eq_self.mpr (fun i hi => by simpa using hin i hi),
        List.filter_eq_self.mpr (fun f hf => by simpa using hfn f hf)]

theorem c8_witness :
    MemoryDataRepository.delete_user_data stateC3 "ghost" = stateC3 :=
  c8_delete_user_data_complete.2.1 stateC3 "ghost" rfl rfl rfl

/-- C9: in the document-store backend, a user id containing an `@` but no
`.` is rejected with a `ValidationError` on the `user_id` field by the
shared `validate_user_id` check, and therefore by every operation that
takes a user id — corpus save (through corpus validation), corpus get,
partial update, interaction save, recent-interaction read, statistics,
deletion, and user-scoped search — before any collection is touched. (When
such an id is also over 255 characters the reason string is the length one;
either way the rejection is a `ValidationError` on `user_id`.) -/
theorem c9_email_format_validated_everywhere (uid : String)
    (h1 : containsChar uid '@' = true) (h2 : containsChar uid '.' = false) :
    ∃ r, MongoMemoryRepository.validate_user_id uid =
        .error (.validationError "user_id" r)
      ∧ (∀ s corpus, corpus.user_id = uid →
          MongoMemoryRepository.save_memory_corpus s corpus =
            .error (.validationError "user_id" r))
      ∧ (∀ s, MongoMemoryRepository.get_memory_corpus s uid =
          .error (.validationError "user_id" r))
      ∧ (∀ now col updates,
          MongoMemoryRepository.update_memory_corpus now col uid updates =
            .error (.validationError "user_id" r))
      ∧ (∀ s i, MongoMemoryRepository.save_interaction s uid i =
          .error (.validationError "user_id" r))
      ∧ (∀ s N, MongoMemoryRepository.get_recent_interactions s uid N =
          .error (.validationError "user_id" r))
      ∧ (∀ now s, MongoMemoryRepository.get_user_statistics now s uid =
          .error (.validationError "user_id" r))
      ∧ (∀ s, MongoMemoryRepository.delete_user_data s uid =
          .error (.validationError "user_id" r))
      ∧ (∀ tm s (q : MemoryQuery), q.user_id = some uid →
          MongoMemoryRepository.search_memories tm s q =
            .error (.validationError "user_id" r)) := by
  have hne : ¬ uid = "" := by
    intro hh
    rw [hh] at h1
    exact absurd h1 (by decide)
  have hv : ∃ r, MongoMemoryRepository.validate_user_id uid =
      .error (.validationError "user_id" r) := by
    unfold MongoMemoryRepository.validate_user_id
    by_cases hlen : 255 < uid.length
    · exact ⟨"User ID cannot exceed 255 characters", by simp [hne, hlen]⟩
    · exact ⟨"Invalid email format", by simp [hne, hlen, h1, h2]⟩
  obtain ⟨r, hv⟩ := hv
  refine ⟨r, hv, ?_, ?_, ?_, ?_, ?_, ?_, ?_, ?_⟩
  · intro s corpus hcu
    simp [MongoMemoryRepository.save_memory_corpus,
      MongoMemoryRepository.validate_memory_corpus, hcu, hv]
  · intro s
    simp [MongoMemoryRepository.get_memory_corpus, hv]
  · intro now col updates
    simp [MongoMemoryRepository.update_memory_corpus, hv]
  · intro s i
    simp [MongoMemoryRepository.save_interaction, hv]
  · intro s N
    simp [MongoMemoryRepository.get_recent_interactions, hv]
  · intro now s
    simp [MongoMemoryRepository.get_user_statistics,
      MongoMemoryRepository.get_recent_interactions, hv]
  · intro s
    simp [MongoMemoryRepository.delete_user_data, hv]
  · intro tm s q hq
    simp [MongoMemoryRepository.search_memories, hq, hv]

theorem c9_witness :
    containsChar "alice@corp" '@' = true ∧ containsChar "alice@corp" '.' = false ∧
      ∃ r, MongoMemoryRepository.validate_user_id "alice@corp" =
          .error (.validationError "user_id" r) ∧
        ∀ s, MongoMemoryRepository.get_memory_corpus s "alice@corp" =
          .error (.validationError "user_id" r) := by
  refine ⟨by decide, by decide, ?_⟩
  obtain ⟨r, hval, _, hget, _⟩ :=
    c9_email_format_validated_everywhere "alice@corp" (by decide) (by decide)
  exact ⟨r, hval, hget⟩
